import Mathlib

/-!
Verification development for the ICBC appointment checker's monitoring core
(`src/icbc_checker.py`, `src/notifier.py`).

The Python code is shallowly embedded as executable Lean functions:
* configuration values (preferred test centers, earliest acceptable date,
  notification method) are passed as explicit parameters;
* the Selenium/browser collaborator is modelled as an input describing the
  outcome of each page interaction (`Except` for operations whose Python
  counterpart can raise);
* `try/except` blocks that swallow exceptions become total functions over
  those `Except` inputs;
* the mutable `last_checked_appointments` set becomes explicit state passing
  of a list of keys.
-/

/-- A raw appointment candidate, mirroring the `appointment_data` dict built by
`_extract_appointment_data_from_button` (icbc_checker.py lines 374-379):
keys `date`, `time`, `location` may be `None`, `license_type` is always set. -/
structure RawCandidate where
  date : Option String
  time : Option String
  location : Option String
  licenseType : String
deriving DecidableEq, Repr

/-- A calendar date, modelling the `datetime` values compared by
`_is_appointment_suitable` (both sides have zero time-of-day components). -/
structure Date where
  year : Nat
  month : Nat
  day : Nat
deriving DecidableEq, Repr

/-- Strict comparison of two dates, mirroring `appointment_date < earliest_acceptable`
on Python `datetime` values whose time components are zero (lexicographic). -/
def dateLtB (a b : Date) : Bool :=
  a.year < b.year ||
    (a.year == b.year && (a.month < b.month || (a.month == b.month && a.day < b.day)))

/-- Python `str.lower()` on the character list of a string (ASCII inputs). -/
def toLowerList (l : List Char) : List Char := l.map Char.toLower

/-- Boolean test that `n` is a leading run of `h`, used to implement Python's
substring operator `in`. -/
def prefOfB (n h : List Char) : Bool :=
  match n, h with
  | [], _ => true
  | a :: as, b :: bs => (a == b) && prefOfB as bs
  | _ :: _, [] => false

/-- Boolean test that `n` occurs contiguously inside `h`: Python's `n in h`
on strings. -/
def subOfB (n : List Char) : List Char → Bool
  | [] => prefOfB n []
  | b :: bs => prefOfB n (b :: bs) || subOfB n bs

/-- Mathematical statement of contiguous containment, used on the
specification side of the location rule. -/
def SubAt (n h : List Char) : Prop := ∃ p q, h = p ++ n ++ q

lemma prefOfB_iff (n h : List Char) : prefOfB n h = true ↔ ∃ q, h = n ++ q := by
  induction n generalizing h with
  | nil => simp [prefOfB]
  | cons a as ih =>
    cases h with
    | nil => simp [prefOfB]
    | cons b bs =>
      simp only [prefOfB, Bool.and_eq_true, beq_iff_eq, ih]
      constructor
      · rintro ⟨rfl, q, rfl⟩
        exact ⟨q, rfl⟩
      · rintro ⟨q, hq⟩
        rcases List.cons_eq_cons.mp hq with ⟨rfl, hrest⟩
        exact ⟨rfl, q, hrest⟩

lemma subOfB_iff (n h : List Char) : subOfB n h = true ↔ SubAt n h := by
  induction h with
  | nil =>
    simp only [subOfB, prefOfB_iff, SubAt]
    constructor
    · rintro ⟨q, hq⟩
      exact ⟨[], q, by simpa using hq⟩
    · rintro ⟨p, q, hpq⟩
      have h1 := List.append_eq_nil.mp (List.append_eq_nil.mp hpq.symm).1
      exact ⟨[], by simp [h1.2]⟩
  | cons b bs ih =>
    simp only [subOfB, Bool.or_eq_true, prefOfB_iff, ih, SubAt]
    constructor
    · rintro (⟨q, hq⟩ | ⟨p, q, hpq⟩)
      · exact ⟨[], q, by simpa using hq⟩
      · exact ⟨b :: p, q, by simp [hpq]⟩
    · rintro ⟨p, q, hpq⟩
      cases p with
      | nil => exact Or.inl ⟨q, by simpa using hpq⟩
      | cons x xs =>
        rcases List.cons_eq_cons.mp hpq with ⟨rfl, hrest⟩
        exact Or.inr ⟨xs, q, hrest⟩

/-- The location rule of `_is_appointment_suitable` (icbc_checker.py lines
419-425): result `true` means the candidate is rejected (`return False` in
Python).  Python's truthiness test `if appointment_data.get('location'):`
skips the rule for both a missing location and an empty-string location. -/
def locationRuleRejects (loc : Option String) (centers : List String) : Bool :=
  match loc with
  | none => false
  | some l =>
    if l.isEmpty then false
    else
      !(centers.any fun c => subOfB (toLowerList c.toList) (toLowerList l.toList))

/-- Python `\w` on the ASCII inputs this program handles: letters, digits,
underscore. -/
def isWordChar (c : Char) : Bool := c.isAlphanum || c == '_'

/-- Python `\d` on ASCII inputs. -/
def isDigitChar (c : Char) : Bool := c.isDigit

/-- Splits a list into its longest leading run of characters satisfying `p`
and the remainder; the building block for the greedy `\w+` / `\d+` pieces of
the regex `(\w+), (\w+) (\d+), (\d+)` used at icbc_checker.py line 434. -/
def splitRun (p : Char → Bool) : List Char → List Char × List Char
  | [] => ([], [])
  | c :: cs =>
    if p c then
      let r := splitRun p cs
      (c :: r.1, r.2)
    else ([], c :: cs)

lemma splitRun_append (p : Char → Bool) (l : List Char) :
    (splitRun p l).1 ++ (splitRun p l).2 = l := by
  induction l with
  | nil => rfl
  | cons c cs ih =>
    by_cases h : p c = true
    · simp [splitRun, h, ih]
    · simp [splitRun, h]

lemma splitRun_all (p : Char → Bool) (l : List Char) :
    ∀ c ∈ (splitRun p l).1, p c = true := by
  induction l with
  | nil => simp [splitRun]
  | cons c cs ih =>
    by_cases h : p c = true
    · simpa [splitRun, h] using ih
    · simp [splitRun, h]

/-- Greedy `p+` group of the regex: fails when the run is empty, otherwise
returns the captured run and the remainder. -/
def expectRun (p : Char → Bool) (l : List Char) : Option (List Char × List Char) :=
  let s := splitRun p l
  if s.1.isEmpty then none else some s

/-- Literal `", "` of the regex. -/
def expectCommaSpace : List Char → Option (List Char)
  | ',' :: ' ' :: r => some r
  | _ => none

/-- Literal `" "` of the regex. -/
def expectSpace : List Char → Option (List Char)
  | ' ' :: r => some r
  | _ => none

/-- One anchored attempt of the regex `(\w+), (\w+) (\d+), (\d+)` at the head
of `l`; returns the four captured groups.  For this pattern, the greedy
maximal-run strategy is equivalent to Python's backtracking search, because
each `+` group is delimited by a character outside its own class. -/
def matchDateAt (l : List Char) :
    Option (List Char × List Char × List Char × List Char) :=
  (expectRun isWordChar l).bind fun s1 =>
  (expectCommaSpace s1.2).bind fun r2 =>
  (expectRun isWordChar r2).bind fun s2 =>
  (expectSpace s2.2).bind fun r4 =>
  (expectRun isDigitChar r4).bind fun s3 =>
  (expectCommaSpace s3.2).bind fun r6 =>
  (expectRun isDigitChar r6).bind fun s4 =>
  some (s1.1, s2.1, s3.1, s4.1)

/-- Search as in Python `re.search`: try each start position left to right
(icbc_checker.py line 434). -/
def reSearchDate : List Char → Option (List Char × List Char × List Char × List Char)
  | [] => none
  | c :: cs =>
    match matchDateAt (c :: cs) with
    | some g => some g
    | none => reSearchDate cs

/-- The fixed 12-entry `month_map` of icbc_checker.py lines 441-445, keyed by
the lowercased month name. -/
def monthLookup : List Char → Option Nat
  | l =>
    if l = "january".toList then some 1
    else if l = "february".toList then some 2
    else if l = "march".toList then some 3
    else if l = "april".toList then some 4
    else if l = "may".toList then some 5
    else if l = "june".toList then some 6
    else if l = "july".toList then some 7
    else if l = "august".toList then some 8
    else if l = "september".toList then some 9
    else if l = "october".toList then some 10
    else if l = "november".toList then some 11
    else if l = "december".toList then some 12
    else none

/-- Numeric value of a digit string (its characters are guaranteed to be
digits by the regex groups that produce it). -/
def natOfDigits (l : List Char) : Nat :=
  l.foldl (fun a c => a * 10 + (c.toNat - 48)) 0

def isLeapYear (y : Nat) : Bool :=
  (y % 4 == 0 && y % 100 != 0) || y % 400 == 0

def daysInMonth (y m : Nat) : Nat :=
  if m = 2 then (if isLeapYear y then 29 else 28)
  else if m = 4 || m = 6 || m = 9 || m = 11 then 30
  else 31

/-- Embeds the strptime call of icbc_checker.py line 448, which parses the
rebuilt year-month-day text with the format `%Y-%m-%d`: `month_num` always comes from the month table (or
its default) so it is a valid two-digit month; `%Y` consumes at most four
digits and `%d` at most two, so longer groups raise `ValueError` (here:
`none`), as do calendar-invalid day numbers and year 0. -/
def strptimeYMD (yearS : List Char) (m : Nat) (dayS : List Char) : Option Date :=
  if yearS.length > 4 || dayS.length > 2 then none
  else
    let y := natOfDigits yearS
    let d := natOfDigits dayS
    if y = 0 then none
    else if d = 0 || d > daysInMonth y m then none
    else some ⟨y, m, d⟩

/-- The date-parsing block of `_is_appointment_suitable` (icbc_checker.py
lines 430-448): regex search, month-name lookup with default `'01'`
(January), then `strptime`.  `none` means either the regex found no match or
`strptime` raised `ValueError`; both fall through without rejecting. -/
def parseAppointmentDate (s : String) : Option Date :=
  match reSearchDate s.toList with
  | none => none
  | some (_, mo, dayS, yearS) =>
    strptimeYMD yearS ((monthLookup (toLowerList mo)).getD 1) dayS

/-- The date rule of `_is_appointment_suitable` (icbc_checker.py lines
428-455): result `true` means the candidate is rejected.  Python's truthiness
test skips the rule for a missing or empty date; an unparsable date falls
through (`except ValueError: pass`), i.e. fails open. -/
def dateRuleRejects (dateOpt : Option String) (earliest : Date) : Bool :=
  match dateOpt with
  | none => false
  | some s =>
    if s.isEmpty then false
    else
      match parseAppointmentDate s with
      | none => false
      | some d => dateLtB d earliest

/-- Mirrors `_is_appointment_suitable` (icbc_checker.py lines 416-461): location rule
first, then date rule, else accept. -/
def is_appointment_suitable (c : RawCandidate) (centers : List String)
    (earliest : Date) : Bool :=
  if locationRuleRejects c.location centers then false
  else if dateRuleRejects c.date earliest then false
  else true

/-- Python truthiness of `appointment_data['time']`:
`_extract_appointment_data_from_button` returns the record only when the time
field is a non-empty string (icbc_checker.py line 410). -/
def timePresentB : Option String → Bool
  | none => false
  | some s => !s.isEmpty

/-- The combined per-candidate gate of `check_availability` line 356: the
extractor's time-existence check (`return appointment_data if
appointment_data['time'] else None`) followed by `_is_appointment_suitable`.
This is the code realisation of the spec's `SuitabilityFilter.evaluate`. -/
def survivesCheck (c : RawCandidate) (centers : List String) (earliest : Date) : Bool :=
  timePresentB c.time && is_appointment_suitable c centers earliest

/-- Python f-string interpolation of a possibly-`None` field:
`f"{None}"` is the fixed non-empty placeholder `"None"`. -/
def serializeOpt : Option String → String
  | none => "None"
  | some s => s

/-- The NoveltyKey of icbc_checker.py line 489:
`f"{appointment.get('date')}-{appointment.get('time')}-{appointment.get('location')}"`. -/
def noveltyKey (c : RawCandidate) : String :=
  serializeOpt c.date ++ "-" ++ serializeOpt c.time ++ "-" ++ serializeOpt c.location

/-- The spec's `NoveltyTracker.checkAndRecord`, realised by the membership
test and insertion of icbc_checker.py lines 490-492, with the mutable
`last_checked_appointments` set modelled as an explicit list of keys. -/
def checkAndRecord (seen : List String) (c : RawCandidate) : Bool × List String :=
  if noveltyKey c ∈ seen then (false, seen)
  else (true, noveltyKey c :: seen)

/-- The dedup loop of `check_for_new_appointments` (icbc_checker.py lines
487-492): walk the available appointments in order, collecting those whose
key is not yet in the seen set and inserting each such key as it is found. -/
def dedupStep (acc : List RawCandidate × List String) (a : RawCandidate) :
    List RawCandidate × List String :=
  if noveltyKey a ∈ acc.2 then acc else (acc.1 ++ [a], noveltyKey a :: acc.2)

def dedupNew (seen : List String) (avail : List RawCandidate) :
    List RawCandidate × List String :=
  avail.foldl dedupStep ([], seen)

/-- Observable tracker/dispatcher actions of one `check_for_new_appointments`
call, in program order: a SeenSet insertion (line 492) or a notification
dispatch (line 498), each tagged with the appointment's NoveltyKey. -/
inductive NEvent where
  | insert (k : String)
  | notify (k : String)
deriving DecidableEq, Repr

/-- Input of one polling cycle, describing the external collaborator's
behaviour: `preOk` is whether the driver-setup/login/navigation stages
(icbc_checker.py lines 466-482) all succeed, and `extraction` is the outcome
of the page scan in `check_availability` — an exception for the whole scan,
or a list of per-button outcomes (each button's extraction may itself raise,
caught at line 358). -/
structure CycleInput where
  preOk : Bool
  extraction : Except String (List (Except String RawCandidate))
deriving Repr

/-- Mirrors `check_availability` (icbc_checker.py lines 306-369): any exception in
the scan returns `[]` (lines 367-369); per-button errors are skipped (lines
358-360); surviving candidates are those passing the time-existence gate and
`_is_appointment_suitable` (line 356). -/
def check_availability (extraction : Except String (List (Except String RawCandidate)))
    (centers : List String) (earliest : Date) : List RawCandidate :=
  match extraction with
  | Except.error _ => []
  | Except.ok buttons =>
    buttons.foldl
      (fun acc b =>
        match b with
        | Except.error _ => acc
        | Except.ok c =>
          if survivesCheck c centers earliest then acc ++ [c]
          else acc)
      []

/-- Mirrors `check_for_new_appointments` (icbc_checker.py lines 463-509): returns the
Python boolean result, the updated seen set, and the emitted event trace.
The trace is the insertions of the dedup loop (lines 487-492, in the order
the new appointments were found) followed by the notification dispatches of
the second loop (lines 497-498, in the same order).  A failed pre-stage
returns `False` before reaching the tracker (lines 466-482). -/
def check_for_new_appointments (seen : List String) (inp : CycleInput)
    (centers : List String) (earliest : Date) : Bool × List String × List NEvent :=
  if !inp.preOk then (false, seen, [])
  else
    let avail := check_availability inp.extraction centers earliest
    let nd := dedupNew seen avail
    (!nd.1.isEmpty, nd.2,
      nd.1.map (fun a => NEvent.insert (noveltyKey a)) ++
        nd.1.map (fun a => NEvent.notify (noveltyKey a)))

/-- Mirrors `run_continuous_check` (icbc_checker.py lines 511-527) over a finite
schedule of cycle inputs: each cycle runs `check_for_new_appointments` on the
state left by the previous one; the list of per-cycle boolean outcomes, the
final seen set, and the concatenated event trace are returned.  The Python
loop body cannot raise (its callee catches every exception), so every
scheduled cycle runs. -/
def cycleStep (centers : List String) (earliest : Date)
    (acc : List Bool × List String × List NEvent) (inp : CycleInput) :
    List Bool × List String × List NEvent :=
  let r := check_for_new_appointments acc.2.1 inp centers earliest
  (acc.1 ++ [r.1], r.2.1, acc.2.2 ++ r.2.2)

def run_continuous_check (seen : List String) (centers : List String)
    (earliest : Date) (inputs : List CycleInput) :
    List Bool × List String × List NEvent :=
  inputs.foldl (cycleStep centers earliest) ([], seen, [])

/-- External transmissions a dispatch call can perform. -/
inductive Transmission where
  | email
  | sms
deriving DecidableEq, Repr

/-- Python's banner separator, the 50-fold repetition of the equals sign
written as the expression 50 times the one-character string in notifier.py. -/
def sepLine50 : String := String.mk (List.replicate 50 '=')

/-- Mirrors the console channel (notifier.py lines 98-116): builds
the console banner from the appointment fields (Python's `get(key, 'Unknown')`
returns the stored value, which prints as `None` when the field is absent —
the dict always carries all four keys) and returns `True`. -/
def send_console_notification (a : RawCandidate) (now : String) :
    List String × Bool :=
  ([sepLine50
   , "🚗 ICBC APPOINTMENT AVAILABLE!"
   , sepLine50
   , "Date: " ++ serializeOpt a.date
   , "Time: " ++ serializeOpt a.time
   , "Location: " ++ serializeOpt a.location
   , "License Type: " ++ a.licenseType
   , "Found at: " ++ now
   , sepLine50
   , "Book your appointment now!"
   , sepLine50],
   true)

/-- Mirrors the email channel (notifier.py lines 47-73): the whole
body — message construction and the SMTP connect/starttls/login/sendmail/quit
sequence — sits in a `try` whose `except Exception` returns `False`; the
transport outcome is an input (`Except.error` = any exception raised by the
SMTP interaction). -/
def send_email_notification (_a : RawCandidate)
    (transport : Except String Unit) : Bool :=
  match transport with
  | Except.ok _ => true
  | Except.error _ => false

/-- Mirrors the SMS channel (notifier.py lines 75-96): the Twilio
client call is wrapped in `try` with `except TwilioException` and
`except Exception`, both returning `False`. -/
def send_sms_notification (_a : RawCandidate)
    (transport : Except String Unit) : Bool :=
  match transport with
  | Except.ok _ => true
  | Except.error _ => false

/-- Mirrors the dispatch entry point (notifier.py lines 23-45): select the
channel by the configured method string; an unknown method prints a warning
and returns `False` without touching any channel.  The second component
records which external transmissions were attempted. -/
def send_notification (method : String) (a : RawCandidate) (now : String)
    (emailTransport smsTransport : Except String Unit) : Bool × List Transmission :=
  if method = "email" then (send_email_notification a emailTransport, [Transmission.email])
  else if method = "sms" then (send_sms_notification a smsTransport, [Transmission.sms])
  else if method = "console" then ((send_console_notification a now).2, [])
  else (false, [])

/-- Scans a character list for a digit immediately followed by a comma.  Any
match of the regex `(\w+), (\w+) (\d+), (\d+)` forces such an adjacency (the
third group is a non-empty digit run immediately followed by `','`), so its
absence proves the regex cannot match anywhere. -/
def hasDigitComma : List Char → Bool
  | c1 :: c2 :: rest => (isDigitChar c1 && (c2 == ',')) || hasDigitComma (c2 :: rest)
  | _ => false

/-- First character is a comma (used for append decompositions). -/
def headIsComma (l : List Char) : Bool :=
  match l.head? with
  | some c => c == ','
  | none => false

lemma hasDigitComma_cons (a : Char) (l : List Char) :
    hasDigitComma (a :: l) = ((isDigitChar a && headIsComma l) || hasDigitComma l) := by
  cases l with
  | nil => simp [hasDigitComma, headIsComma]
  | cons b r => simp [hasDigitComma, headIsComma]

lemma hasDigitComma_append_no_digit (l1 l2 : List Char)
    (h : ∀ c ∈ l1, isDigitChar c = false) :
    hasDigitComma (l1 ++ l2) = hasDigitComma l2 := by
  induction l1 with
  | nil => rfl
  | cons a as ih =>
    have ha : isDigitChar a = false := h a (by simp)
    rw [List.cons_append, hasDigitComma_cons, ha]
    simp [ih fun c hc => h c (by simp [hc])]

lemma hasDigitComma_cons_strip {a : Char} (l : List Char)
    (ha : isDigitChar a = false) : hasDigitComma (a :: l) = hasDigitComma l := by
  rw [hasDigitComma_cons, ha]
  simp

lemma headIsComma_append_of_left {l1 : List Char} (l2 : List Char)
    (h : ∀ c ∈ l1, (c == ',') = false) (h2 : headIsComma l2 = false) :
    headIsComma (l1 ++ l2) = false := by
  cases l1 with
  | nil => simpa using h2
  | cons a as => simpa [headIsComma] using h a (by simp)

lemma hasDigitComma_digitrun_append (l1 l2 : List Char)
    (h1 : ∀ c ∈ l1, (c == ',') = false) (h2 : headIsComma l2 = false) :
    hasDigitComma (l1 ++ l2) = hasDigitComma l2 := by
  induction l1 with
  | nil => rfl
  | cons a as ih =>
    have tail := ih fun c hc => h1 c (by simp [hc])
    rw [List.cons_append, hasDigitComma_cons,
      headIsComma_append_of_left l2 (fun c hc => h1 c (by simp [hc])) h2]
    simp [tail]

lemma hasDigitComma_of_split (p q : List Char) (c : Char)
    (hc : isDigitChar c = true) :
    hasDigitComma (p ++ c :: ',' :: q) = true := by
  induction p with
  | nil => simp [hasDigitComma, hc]
  | cons a as ih =>
    rw [List.cons_append, hasDigitComma_cons, ih]
    simp

lemma expectRun_eq_some {p : Char → Bool} {l : List Char} {s : List Char × List Char}
    (h : expectRun p l = some s) :
    l = s.1 ++ s.2 ∧ s.1 ≠ [] ∧ ∀ c ∈ s.1, p c = true := by
  unfold expectRun at h
  by_cases he : (splitRun p l).1.isEmpty
  · simp [he] at h
  · simp only [he, if_false] at h
    obtain rfl := Option.some.inj h
    refine ⟨(splitRun_append p l).symm, ?_, splitRun_all p l⟩
    intro hr
    simp [hr] at he

lemma expectCommaSpace_eq_some {l r : List Char} (h : expectCommaSpace l = some r) :
    l = ',' :: ' ' :: r := by
  unfold expectCommaSpace at h
  split at h
  · obtain rfl := Option.some.inj h
    rfl
  · simp at h

lemma expectSpace_eq_some {l r : List Char} (h : expectSpace l = some r) :
    l = ' ' :: r := by
  unfold expectSpace at h
  split at h
  · obtain rfl := Option.some.inj h
    rfl
  · simp at h

/-- Any successful anchored match exhibits a digit immediately followed by a
comma: the last character of the `(\d+)` day group, which the pattern
requires to be followed by the literal `','`. -/
lemma matchDateAt_some_hasDigitComma {l : List Char}
    {g : List Char × List Char × List Char × List Char}
    (h : matchDateAt l = some g) : hasDigitComma l = true := by
  unfold matchDateAt at h
  rcases Option.bind_eq_some.mp h with ⟨s1, hs1, h⟩
  rcases Option.bind_eq_some.mp h with ⟨r2, hr2, h⟩
  rcases Option.bind_eq_some.mp h with ⟨s2, hs2, h⟩
  rcases Option.bind_eq_some.mp h with ⟨r4, hr4, h⟩
  rcases Option.bind_eq_some.mp h with ⟨s3, hs3, h⟩
  rcases Option.bind_eq_some.mp h with ⟨r6, hr6, _h⟩
  obtain ⟨hl1, _, _⟩ := expectRun_eq_some hs1
  have hl2 := expectCommaSpace_eq_some hr2
  obtain ⟨hl3, _, _⟩ := expectRun_eq_some hs2
  have hl4 := expectSpace_eq_some hr4
  obtain ⟨hl5, hd1ne, hd1dig⟩ := expectRun_eq_some hs3
  have hl6 := expectCommaSpace_eq_some hr6
  have hdig : isDigitChar (s3.1.getLast hd1ne) = true :=
    hd1dig _ (List.getLast_mem hd1ne)
  have hlast : s3.1.dropLast ++ [s3.1.getLast hd1ne] = s3.1 :=
    List.dropLast_append_getLast hd1ne
  rw [hl2] at hl1
  rw [hl3, hl4, hl5, hl6] at hl1
  rw [hl1, ← hlast]
  have heq :
      s1.1 ++ ',' :: ' ' ::
          (s2.1 ++ ' ' :: ((s3.1.dropLast ++ [s3.1.getLast hd1ne]) ++ ',' :: ' ' :: r6))
        = (s1.1 ++ ',' :: ' ' :: (s2.1 ++ ' ' :: s3.1.dropLast)) ++
            (s3.1.getLast hd1ne) :: ',' :: (' ' :: r6) := by
    simp [List.append_assoc]
  rw [heq]
  exact hasDigitComma_of_split _ _ _ hdig

/-- If no digit is immediately followed by a comma, the regex search fails at
every start position. -/
lemma reSearchDate_eq_none {l : List Char} (h : hasDigitComma l = false) :
    reSearchDate l = none := by
  induction l with
  | nil => rfl
  | cons c cs ih =>
    have hm : matchDateAt (c :: cs) = none := by
      cases hm : matchDateAt (c :: cs) with
      | none => rfl
      | some g =>
        rw [matchDateAt_some_hasDigitComma hm] at h
        exact absurd h (by simp)
    have hcs : hasDigitComma cs = false := by
      rw [hasDigitComma_cons] at h
      exact (Bool.or_eq_false_iff.mp h).2
    simp [reSearchDate, hm, ih hcs]

/-- The ASCII letters, the alphabet of weekday and month names. -/
def asciiLetters : List Char :=
  "ABCDEFGHIJKLMNOPQRSTUVWXYZabcdefghijklmnopqrstuvwxyz".toList

/-- The ASCII digits, the alphabet of day and year numbers. -/
def asciiDigits : List Char := "0123456789".toList

/-- The English ordinal suffixes appearing in dates such as
"Thursday, January 22nd, 2026". -/
def ordinalSuffixes : List (List Char) :=
  [['s', 't'], ['n', 'd'], ['r', 'd'], ['t', 'h']]

lemma asciiLetters_not_digit : ∀ c ∈ asciiLetters, isDigitChar c = false := by
  decide

lemma asciiLetters_not_comma : ∀ c ∈ asciiLetters, (c == ',') = false := by
  decide

lemma asciiDigits_not_comma : ∀ c ∈ asciiDigits, (c == ',') = false := by
  decide

lemma hasDigitComma_no_comma {l : List Char} (h : ∀ c ∈ l, (c == ',') = false) :
    hasDigitComma l = false := by
  induction l with
  | nil => rfl
  | cons a as ih =>
    rw [hasDigitComma_cons]
    have h2 : headIsComma as = false := by
      cases as with
      | nil => rfl
      | cons b bs => simpa [headIsComma] using h b (by simp)
    simp [h2, ih fun c hc => h c (by simp [hc])]

/-- No string of the shape `<weekday>, <month> <day><ordinal suffix>, <year>`
contains a digit immediately followed by a comma: the character before the
first comma is a letter of the weekday, and the character before the second
comma is the last letter of the ordinal suffix. -/
lemma hasDigitComma_suffix_shape (W M D Y SUF : List Char)
    (hW : ∀ c ∈ W, c ∈ asciiLetters) (hM : ∀ c ∈ M, c ∈ asciiLetters)
    (hD : ∀ c ∈ D, c ∈ asciiDigits) (hY : ∀ c ∈ Y, c ∈ asciiDigits)
    (hSUF : SUF ∈ ordinalSuffixes) :
    hasDigitComma (W ++ ',' :: ' ' :: (M ++ ' ' :: (D ++ (SUF ++ ',' :: ' ' :: Y))))
      = false := by
  rw [hasDigitComma_append_no_digit _ _ fun c hc => asciiLetters_not_digit c (hW c hc)]
  rw [hasDigitComma_cons_strip _ (by decide)]
  rw [hasDigitComma_cons_strip _ (by decide)]
  rw [hasDigitComma_append_no_digit _ _ fun c hc => asciiLetters_not_digit c (hM c hc)]
  rw [hasDigitComma_cons_strip _ (by decide)]
  simp only [ordinalSuffixes, List.mem_cons, List.not_mem_nil, or_false] at hSUF
  have hhead : headIsComma (SUF ++ ',' :: ' ' :: Y) = false := by
    rcases hSUF with rfl | rfl | rfl | rfl <;> simp [headIsComma]
  rw [hasDigitComma_digitrun_append _ _
    (fun c hc => asciiDigits_not_comma c (hD c hc)) hhead]
  have hY' : hasDigitComma Y = false :=
    hasDigitComma_no_comma fun c hc => asciiDigits_not_comma c (hY c hc)
  rcases hSUF with rfl | rfl | rfl | rfl <;>
    simp only [List.cons_append, List.nil_append] <;>
    rw [hasDigitComma_cons_strip _ (by decide), hasDigitComma_cons_strip _ (by decide),
      hasDigitComma_cons_strip _ (by decide), hasDigitComma_cons_strip _ (by decide)] <;>
    exact hY'

/-- The regex of icbc_checker.py line 434 cannot match any ordinal-suffixed
date string: its `(\d+),` piece demands a digit immediately before the second
comma, but the suffix letters sit there. -/
lemma parseAppointmentDate_suffix_shape_none (s : String) (W M D Y SUF : List Char)
    (hs : s.toList = W ++ ',' :: ' ' :: (M ++ ' ' :: (D ++ (SUF ++ ',' :: ' ' :: Y))))
    (hW : ∀ c ∈ W, c ∈ asciiLetters) (hM : ∀ c ∈ M, c ∈ asciiLetters)
    (hD : ∀ c ∈ D, c ∈ asciiDigits) (hY : ∀ c ∈ Y, c ∈ asciiDigits)
    (hSUF : SUF ∈ ordinalSuffixes) :
    parseAppointmentDate s = none := by
  unfold parseAppointmentDate
  rw [hs, reSearchDate_eq_none (hasDigitComma_suffix_shape W M D Y SUF hW hM hD hY hSUF)]

lemma dateRuleRejects_of_parse_none {s : String} (h : parseAppointmentDate s = none)
    (earliest : Date) : dateRuleRejects (some s) earliest = false := by
  unfold dateRuleRejects
  by_cases he : s.isEmpty
  · simp [he]
  · simp [he, h]

/-- Invariant carried through the dedup loop of icbc_checker.py lines
487-492, relative to the seen set `seen0` the loop started from: the seen set
only grows, every new appointment's key was fresh at the start and is now
recorded, and the new appointments carry pairwise distinct keys. -/
def NewsInv (seen0 : List String) (acc : List RawCandidate × List String) : Prop :=
  (∀ x ∈ seen0, x ∈ acc.2) ∧
  (∀ a ∈ acc.1, noveltyKey a ∉ seen0 ∧ noveltyKey a ∈ acc.2) ∧
  (acc.1.map noveltyKey).Nodup

lemma dedupStep_inv (seen0 : List String) (acc : List RawCandidate × List String)
    (a : RawCandidate) (h : NewsInv seen0 acc) : NewsInv seen0 (dedupStep acc a) := by
  obtain ⟨h1, h2, h3⟩ := h
  unfold dedupStep
  by_cases hk : noveltyKey a ∈ acc.2
  · simpa [hk] using ⟨h1, h2, h3⟩
  · simp only [hk, if_false]
    refine ⟨?_, ?_, ?_⟩
    · intro x hx
      exact List.mem_cons_of_mem _ (h1 x hx)
    · intro b hb
      rcases List.mem_append.mp hb with hb | hb
      · obtain ⟨hb1, hb2⟩ := h2 b hb
        exact ⟨hb1, List.mem_cons_of_mem _ hb2⟩
      · obtain rfl : b = a := by simpa using hb
        exact ⟨fun hmem => hk (h1 _ hmem), List.mem_cons_self _ _⟩
    · rw [List.map_append]
      rw [List.nodup_append]
      refine ⟨h3, by simp, ?_⟩
      intro x hx hx'
      obtain rfl : x = noveltyKey a := by simpa using hx'
      rcases List.mem_map.mp hx with ⟨b, hb, hbk⟩
      have hb2 := (h2 b hb).2
      rw [hbk] at hb2
      exact hk hb2

lemma foldl_dedupStep_inv (seen0 : List String) (avail : List RawCandidate) :
    ∀ acc, NewsInv seen0 acc → NewsInv seen0 (avail.foldl dedupStep acc) := by
  induction avail with
  | nil => exact fun acc h => h
  | cons a as ih =>
    intro acc h
    rw [List.foldl_cons]
    exact ih _ (dedupStep_inv seen0 acc a h)

lemma dedupNew_spec (seen : List String) (avail : List RawCandidate) :
    NewsInv seen (dedupNew seen avail) :=
  foldl_dedupStep_inv seen avail ([], seen) ⟨fun _ hx => hx, by simp, by simp⟩

lemma notify_not_mem_insMap (news : List RawCandidate) (k : String) :
    NEvent.notify k ∉ news.map fun a => NEvent.insert (noveltyKey a) := by
  intro h
  rcases List.mem_map.mp h with ⟨a, _, h⟩
  exact NEvent.noConfusion h

lemma notify_injective : Function.Injective NEvent.notify := by
  intro a b h
  injection h

/-- The event trace of one cycle dispatches each key at most once: its
notifications are exactly the new appointments' keys, which are pairwise
distinct. -/
lemma cfna_notify_count (seen : List String) (inp : CycleInput)
    (centers : List String) (earliest : Date) (k : String) :
    List.count (NEvent.notify k)
      (check_for_new_appointments seen inp centers earliest).2.2 ≤ 1 := by
  unfold check_for_new_appointments
  cases hp : inp.preOk with
  | false => simp [hp]
  | true =>
    simp only [hp, Bool.not_true, Bool.false_eq_true, if_false]
    have hnd := (dedupNew_spec seen
      (check_availability inp.extraction centers earliest)).2.2
    rw [List.count_append]
    have hins : List.count (NEvent.notify k)
        ((dedupNew seen (check_availability inp.extraction centers earliest)).1.map
          fun a => NEvent.insert (noveltyKey a)) = 0 :=
      List.count_eq_zero.mpr (notify_not_mem_insMap _ k)
    have hm : ((dedupNew seen (check_availability inp.extraction centers earliest)).1.map
        fun a => NEvent.notify (noveltyKey a))
        = ((dedupNew seen (check_availability inp.extraction centers earliest)).1.map
            noveltyKey).map NEvent.notify := by
      rw [List.map_map]
      rfl
    have hnot : List.count (NEvent.notify k)
        ((dedupNew seen (check_availability inp.extraction centers earliest)).1.map
          fun a => NEvent.notify (noveltyKey a)) ≤ 1 := by
      rw [hm, List.count_map_of_injective _ _ notify_injective]
      exact List.nodup_iff_count_le_one.mp hnd k
    omega

/-- A key notified in a cycle was absent from the seen set at the start of
the cycle and present at its end. -/
lemma cfna_notify_mem {seen : List String} {inp : CycleInput}
    {centers : List String} {earliest : Date} {k : String}
    (h : NEvent.notify k ∈ (check_for_new_appointments seen inp centers earliest).2.2) :
    k ∉ seen ∧ k ∈ (check_for_new_appointments seen inp centers earliest).2.1 := by
  unfold check_for_new_appointments at *
  cases hp : inp.preOk with
  | false => simp [hp] at h
  | true =>
    simp only [hp, Bool.not_true, Bool.false_eq_true, if_false] at h ⊢
    rcases List.mem_append.mp h with h | h
    · exact absurd h (notify_not_mem_insMap _ k)
    · rcases List.mem_map.mp h with ⟨a, ha, hak⟩
      have hk : noveltyKey a = k := by injection hak
      have := (dedupNew_spec seen (check_availability inp.extraction centers earliest)).2.1 a ha
      rw [hk] at this
      exact this

/-- The seen set never shrinks across a cycle. -/
lemma cfna_seen_mono (seen : List String) (inp : CycleInput)
    (centers : List String) (earliest : Date) :
    ∀ x ∈ seen, x ∈ (check_for_new_appointments seen inp centers earliest).2.1 := by
  unfold check_for_new_appointments
  cases hp : inp.preOk with
  | false => simp [hp]
  | true =>
    simp only [hp, Bool.not_true, Bool.false_eq_true, if_false]
    exact (dedupNew_spec seen (check_availability inp.extraction centers earliest)).1

/-- Within one cycle's trace every notification is preceded by the insertion
of the same key: insertions (line 492) all happen in the first loop, before
the notification loop (lines 497-498) runs. -/
lemma cfna_insert_before {seen : List String} {inp : CycleInput}
    {centers : List String} {earliest : Date} {k : String} {l1 l2 : List NEvent}
    (h : (check_for_new_appointments seen inp centers earliest).2.2
      = l1 ++ NEvent.notify k :: l2) :
    NEvent.insert k ∈ l1 := by
  unfold check_for_new_appointments at h
  cases hp : inp.preOk with
  | false =>
    rw [hp] at h
    simp at h
  | true =>
    simp only [hp, Bool.not_true, Bool.false_eq_true, if_false] at h
    set news := (dedupNew seen (check_availability inp.extraction centers earliest)).1 with hn
    have hins : ∀ k', NEvent.notify k' ∈ news.map (fun a => NEvent.notify (noveltyKey a)) →
        NEvent.insert k' ∈ news.map fun a => NEvent.insert (noveltyKey a) := by
      intro k' hk'
      rcases List.mem_map.mp hk' with ⟨a, ha, hak⟩
      have hik : noveltyKey a = k' := by injection hak
      exact List.mem_map.mpr ⟨a, ha, by rw [hik]⟩
    rcases List.append_eq_append_iff.mp h with ⟨a', ha1, ha2⟩ | ⟨c', hc1, hc2⟩
    · have hmem : NEvent.notify k ∈ news.map fun a => NEvent.notify (noveltyKey a) := by
        rw [ha2]
        exact List.mem_append.mpr (Or.inr (List.mem_cons_self _ _))
      rw [ha1]
      exact List.mem_append.mpr (Or.inl (hins k hmem))
    · cases c' with
      | nil =>
        have hmem : NEvent.notify k ∈ NEvent.notify k :: l2 := List.mem_cons_self _ _
        rw [hc2] at hmem
        have h2 := hins k (by simpa using hmem)
        rw [hc1] at h2
        simpa using h2
      | cons x xs =>
        rw [List.cons_append] at hc2
        have hx : x = NEvent.notify k := ((List.cons_eq_cons.mp hc2).1).symm
        exfalso
        apply notify_not_mem_insMap news k
        rw [hc1, hx]
        exact List.mem_append.mpr (Or.inr (List.mem_cons_self _ _))

/-- Invariant of the accumulated state of `run_continuous_check`: every
notified key is recorded in the seen set, no key is notified more than once,
and every notification is preceded in the trace by the insertion of its key. -/
def RunInv (acc : List Bool × List String × List NEvent) : Prop :=
  (∀ k, NEvent.notify k ∈ acc.2.2 → k ∈ acc.2.1) ∧
  (∀ k, List.count (NEvent.notify k) acc.2.2 ≤ 1) ∧
  (∀ k l1 l2, acc.2.2 = l1 ++ NEvent.notify k :: l2 → NEvent.insert k ∈ l1)

lemma cycleStep_inv (centers : List String) (earliest : Date)
    (acc : List Bool × List String × List NEvent) (inp : CycleInput)
    (h : RunInv acc) : RunInv (cycleStep centers earliest acc inp) := by
  obtain ⟨h1, h2, h3⟩ := h
  unfold cycleStep
  refine ⟨?_, ?_, ?_⟩
  · intro k hk
    rcases List.mem_append.mp hk with hk | hk
    · exact cfna_seen_mono acc.2.1 inp centers earliest _ (h1 k hk)
    · exact (cfna_notify_mem hk).2
  · intro k
    rw [List.count_append]
    by_cases hmem : NEvent.notify k ∈
        (check_for_new_appointments acc.2.1 inp centers earliest).2.2
    · have hnotseen := (cfna_notify_mem hmem).1
      have htr : NEvent.notify k ∉ acc.2.2 := fun hc => hnotseen (h1 k hc)
      rw [List.count_eq_zero.mpr htr]
      simpa using cfna_notify_count acc.2.1 inp centers earliest k
    · rw [List.count_eq_zero.mpr hmem]
      have := h2 k
      omega
  · intro k l1 l2 hsplit
    rcases List.append_eq_append_iff.mp hsplit with ⟨a', ha1, ha2⟩ | ⟨c', hc1, hc2⟩
    · rw [ha1]
      exact List.mem_append.mpr (Or.inr (cfna_insert_before ha2))
    · cases c' with
      | nil =>
        have h0 : (check_for_new_appointments acc.2.1 inp centers earliest).2.2
            = [] ++ NEvent.notify k :: l2 := by
          simpa using hc2.symm
        have := cfna_insert_before h0
        simp at this
      | cons x xs =>
        rw [List.cons_append] at hc2
        have hx : x = NEvent.notify k := ((List.cons_eq_cons.mp hc2).1).symm
        have hrest : l2 = xs ++ (check_for_new_appointments acc.2.1 inp centers earliest).2.2 :=
          (List.cons_eq_cons.mp hc2).2
        rw [hx] at hc1
        exact h3 k l1 xs hc1

lemma foldl_cycleStep_inv (centers : List String) (earliest : Date)
    (inputs : List CycleInput) :
    ∀ acc, RunInv acc → RunInv (inputs.foldl (cycleStep centers earliest) acc) := by
  induction inputs with
  | nil => exact fun acc h => h
  | cons inp rest ih =>
    intro acc h
    rw [List.foldl_cons]
    exact ih _ (cycleStep_inv centers earliest acc inp h)

lemma run_continuous_check_inv (seen : List String) (centers : List String)
    (earliest : Date) (inputs : List CycleInput) :
    RunInv (run_continuous_check seen centers earliest inputs) := by
  unfold run_continuous_check
  apply foldl_cycleStep_inv
  refine ⟨?_, ?_, ?_⟩
  · intro k hk
    simp at hk
  · intro k
    simp
  · intro k l1 l2 hsplit
    exact absurd hsplit.symm (by simp)

/-- Every scheduled cycle produces an outcome: one boolean per input. -/
lemma run_continuous_check_length (seen : List String) (centers : List String)
    (earliest : Date) (inputs : List CycleInput) :
    (run_continuous_check seen centers earliest inputs).1.length = inputs.length := by
  unfold run_continuous_check
  suffices h : ∀ acc : List Bool × List String × List NEvent,
      (inputs.foldl (cycleStep centers earliest) acc).1.length
        = acc.1.length + inputs.length by
    simpa using h ([], seen, [])
  induction inputs with
  | nil => simp
  | cons inp rest ih =>
    intro acc
    rw [List.foldl_cons, ih]
    simp [cycleStep]
    omega

/-- Claim C1: over the whole process lifetime (a run of the continuous check
loop starting from an empty seen set), each distinct NoveltyKey is dispatched
at most one notification, and every notification in the trace is strictly
preceded by the insertion of its key into the seen set (insert-then-notify,
never notify-then-insert). -/
theorem claim1_at_most_once_insert_before_notify
    (centers : List String) (earliest : Date) (inputs : List CycleInput) (k : String) :
    List.count (NEvent.notify k) (run_continuous_check [] centers earliest inputs).2.2 ≤ 1 ∧
    ∀ l1 l2, (run_continuous_check [] centers earliest inputs).2.2
        = l1 ++ NEvent.notify k :: l2 → NEvent.insert k ∈ l1 := by
  have h := run_continuous_check_inv [] centers earliest inputs
  exact ⟨h.2.1 k, fun l1 l2 hs => h.2.2 k l1 l2 hs⟩

theorem claim1_witness :
    NEvent.insert "None-8:35 AM-Downtown ICBC Office" ∈
      [NEvent.insert "None-8:35 AM-Downtown ICBC Office"] :=
  (claim1_at_most_once_insert_before_notify ["Downtown"] ⟨2025, 9, 3⟩
      [⟨true, Except.ok [Except.ok
        ⟨none, some "8:35 AM", some "Downtown ICBC Office", "Class 7 (N)"⟩]⟩]
      "None-8:35 AM-Downtown ICBC Office").2
    [NEvent.insert "None-8:35 AM-Downtown ICBC Office"] [] (by decide)

/-- Claim C2 (code bug): the spec and the code's own comment say dates of the
form "Monday, March 3rd, 2025" are parsed and rejected when before the
earliest acceptable date, but the regex `(\w+), (\w+) (\d+), (\d+)` requires
the day digits to be immediately followed by a comma, so ordinal-suffixed
dates never match: the scenario-C candidate falls through the fail-open path
and is accepted. -/
theorem claim2_code_eval :
    parseAppointmentDate "Monday, March 3rd, 2025" = none ∧
    dateRuleRejects (some "Monday, March 3rd, 2025") ⟨2025, 9, 3⟩ = false ∧
    survivesCheck ⟨some "Monday, March 3rd, 2025", some "8:35 AM", none, "Class 7 (N)"⟩
      ["Downtown", "Richmond", "Burnaby", "Victoria"] ⟨2025, 9, 3⟩ = true := by
  refine ⟨by decide, by decide, by decide⟩

/-- Claim C3: a candidate whose date text has the expected shape
`<weekday>, <month> <day><ordinal suffix>, <year>` with an unrecognized month
name is never rejected because of that date: the date rule fails open, and
the filter's verdict is the same as if the date were absent. -/
theorem claim3_unrecognized_month_fails_open
    (c : RawCandidate) (centers : List String) (earliest : Date)
    (s : String) (W M D Y SUF : List Char)
    (hdate : c.date = some s)
    (hs : s.toList = W ++ ',' :: ' ' :: (M ++ ' ' :: (D ++ (SUF ++ ',' :: ' ' :: Y))))
    (hW : ∀ ch ∈ W, ch ∈ asciiLetters) (hM : ∀ ch ∈ M, ch ∈ asciiLetters)
    (hD : ∀ ch ∈ D, ch ∈ asciiDigits) (hY : ∀ ch ∈ Y, ch ∈ asciiDigits)
    (hSUF : SUF ∈ ordinalSuffixes)
    (hmonth : monthLookup (toLowerList M) = none) :
    dateRuleRejects c.date earliest = false ∧
    is_appointment_suitable c centers earliest
      = is_appointment_suitable { c with date := none } centers earliest := by
  have hparse := parseAppointmentDate_suffix_shape_none s W M D Y SUF hs hW hM hD hY hSUF
  have hdr : dateRuleRejects c.date earliest = false := by
    rw [hdate]
    exact dateRuleRejects_of_parse_none hparse earliest
  refine ⟨hdr, ?_⟩
  unfold is_appointment_suitable
  have hloc : ({ c with date := none } : RawCandidate).location = c.location := rfl
  have h2 : dateRuleRejects ({ c with date := none } : RawCandidate).date earliest = false :=
    rfl
  rw [hloc, hdr, h2]

theorem claim3_witness :
    dateRuleRejects (some "Thursday, Smarch 22nd, 2026") ⟨2025, 9, 3⟩ = false :=
  (claim3_unrecognized_month_fails_open
    ⟨some "Thursday, Smarch 22nd, 2026", some "8:35 AM", none, "Class 7 (N)"⟩
    [] ⟨2025, 9, 3⟩ "Thursday, Smarch 22nd, 2026"
    ['T', 'h', 'u', 'r', 's', 'd', 'a', 'y'] ['S', 'm', 'a', 'r', 'c', 'h']
    ['2', '2'] ['2', '0', '2', '6'] ['n', 'd']
    rfl (by decide) (by decide) (by decide) (by decide) (by decide) (by decide)
    (by decide)).1

/-- Claim C4: a candidate with absent time never survives the filter gate,
and time is the only field whose absence by itself causes rejection: a
candidate with a non-empty time and absent date and location always
survives. -/
theorem claim4_absent_time_rejects_and_only_time
    (c : RawCandidate) (centers : List String) (earliest : Date) (t : String) :
    (c.time = none → survivesCheck c centers earliest = false) ∧
    (t ≠ "" → ∀ lt : String,
      survivesCheck ⟨none, some t, none, lt⟩ centers earliest = true) := by
  constructor
  · intro h
    simp [survivesCheck, timePresentB, h]
  · intro ht lt
    have hne : t.isEmpty = false := by
      rcases h : t.isEmpty with _ | _
      · rfl
      · exact absurd ((String.isEmpty_iff t).mp h) ht
    simp [survivesCheck, timePresentB, hne, is_appointment_suitable,
      locationRuleRejects, dateRuleRejects]

theorem claim4_witness :
    survivesCheck ⟨none, none, none, "Class 7 (N)"⟩ ["Downtown"] ⟨2025, 9, 3⟩ = false ∧
    survivesCheck ⟨none, some "8:35 AM", none, "Class 7 (N)"⟩ ["Downtown"]
      ⟨2025, 9, 3⟩ = true := by
  have h := claim4_absent_time_rejects_and_only_time ⟨none, none, none, "Class 7 (N)"⟩
    ["Downtown"] ⟨2025, 9, 3⟩ "8:35 AM"
  exact ⟨h.1 rfl, h.2 (by decide) "Class 7 (N)"⟩

/-- Claim C5 counterexample: two appointments that differ in the date (and
time) fields share the same NoveltyKey, because the dash-separated
concatenation is not injective; the second `checkAndRecord` returns `false`
although the claim says it must return `true`. -/
theorem claim5_counterexample :
    (⟨some "a", some "b-c", some "d", "N"⟩ : RawCandidate).date
      ≠ (⟨some "a-b", some "c", some "d", "N"⟩ : RawCandidate).date ∧
    noveltyKey ⟨some "a", some "b-c", some "d", "N"⟩
      = noveltyKey ⟨some "a-b", some "c", some "d", "N"⟩ ∧
    (checkAndRecord [] ⟨some "a", some "b-c", some "d", "N"⟩).1 = true ∧
    (checkAndRecord (checkAndRecord [] ⟨some "a", some "b-c", some "d", "N"⟩).2
        ⟨some "a-b", some "c", some "d", "N"⟩).1 = false := by
  refine ⟨by decide, by decide, by decide, by decide⟩

/-- Claim C5 as amended: `checkAndRecord` called twice with the same
appointment on an unchanged tracker returns `true` then `false` and the
second call leaves the seen set unchanged; called on two appointments whose
derived NoveltyKeys differ it returns `true` both times (differing fields
alone do not suffice: the key is not injective); missing fields serialize as
the fixed non-empty placeholder `"None"`. -/
theorem claim5_amended (seen : List String) (c1 c2 : RawCandidate) :
    serializeOpt none = "None" ∧
    (noveltyKey c1 ∉ seen →
      (checkAndRecord seen c1).1 = true ∧
      (checkAndRecord (checkAndRecord seen c1).2 c1).1 = false ∧
      (checkAndRecord (checkAndRecord seen c1).2 c1).2 = (checkAndRecord seen c1).2) ∧
    (noveltyKey c1 ∉ seen → noveltyKey c2 ∉ seen → noveltyKey c1 ≠ noveltyKey c2 →
      (checkAndRecord seen c1).1 = true ∧
      (checkAndRecord (checkAndRecord seen c1).2 c2).1 = true) := by
  refine ⟨rfl, ?_, ?_⟩
  · intro h
    simp [checkAndRecord, h]
  · intro h1 h2 hne
    have hne' : noveltyKey c2 ≠ noveltyKey c1 := fun hc => hne hc.symm
    simp [checkAndRecord, h1, h2, hne']

theorem claim5_amended_witness :
    (checkAndRecord [] ⟨some "a", some "b", some "c", "N"⟩).1 = true ∧
    (checkAndRecord (checkAndRecord [] ⟨some "a", some "b", some "c", "N"⟩).2
        ⟨some "a", some "b", some "c", "N"⟩).1 = false ∧
    (checkAndRecord (checkAndRecord [] ⟨some "a", some "b", some "c", "N"⟩).2
        ⟨some "x", some "b", some "c", "N"⟩).1 = true := by
  have h := claim5_amended [] ⟨some "a", some "b", some "c", "N"⟩
    ⟨some "x", some "b", some "c", "N"⟩
  exact ⟨(h.2.1 (by decide)).1, (h.2.1 (by decide)).2.1,
    (h.2.2 (by decide) (by decide) (by decide)).2⟩

/-- Claim C6 counterexample: a present-but-empty location is skipped by
Python's truthiness test, so the filter does not reject it even though the
empty string contains no entry of the preferred list — the claimed
"if and only if" fails for `location = some ""`. -/
theorem claim6_counterexample :
    locationRuleRejects (some "") ["Downtown"] = false ∧
    ¬ ∃ c ∈ ["Downtown"], SubAt (toLowerList c.toList) (toLowerList "".toList) := by
  constructor
  · decide
  · rintro ⟨c, hc, p, q, hpq⟩
    obtain rfl : c = "Downtown" := by simpa using hc
    have hlen := congrArg List.length hpq
    simp [toLowerList] at hlen
    omega

/-- Claim C6 as amended: a candidate with a present non-empty location passes
the location rule exactly when its lowercased text contains the lowercased
text of at least one preferred center; an absent (or empty) location never
causes rejection. -/
theorem claim6_amended (centers : List String) (loc : String) :
    locationRuleRejects none centers = false ∧
    (loc ≠ "" →
      (locationRuleRejects (some loc) centers = false ↔
        ∃ c ∈ centers, SubAt (toLowerList c.toList) (toLowerList loc.toList))) := by
  refine ⟨rfl, ?_⟩
  intro hl
  have hne : loc.isEmpty = false := by
    rcases h : loc.isEmpty with _ | _
    · rfl
    · exact absurd ((String.isEmpty_iff loc).mp h) hl
  unfold locationRuleRejects
  simp only [hne, Bool.false_eq_true, if_false, Bool.not_eq_false', List.any_eq_true,
    subOfB_iff]

theorem claim6_amended_witness :
    locationRuleRejects (some "Downtown ICBC Office") ["Downtown"] = false :=
  ((claim6_amended ["Downtown"] "Downtown ICBC Office").2 (by decide)).mpr
    ⟨"Downtown", by simp, [], " icbc office".toList, by decide⟩

/-- Claim C7: a cycle whose availability scan raises observes an empty
candidate list and completes normally (returning `false` with the seen set
untouched and no events), and no cycle's failure terminates the polling
loop: every scheduled cycle produces an outcome. -/
theorem claim7_extraction_failure_isolated
    (seen : List String) (centers : List String) (earliest : Date)
    (err : String) (pre : Bool) (inputs : List CycleInput) :
    check_availability (Except.error err) centers earliest = [] ∧
    check_for_new_appointments seen ⟨pre, Except.error err⟩ centers earliest
      = (false, seen, []) ∧
    (run_continuous_check seen centers earliest inputs).1.length = inputs.length := by
  refine ⟨rfl, ?_, run_continuous_check_length seen centers earliest inputs⟩
  cases pre with
  | false => rfl
  | true => rfl

/-- Claim C8: any transport failure inside the email or SMS channel send is
caught at the channel boundary and converted to a `false` result, for the
channel itself and for the dispatch entry point; dispatch is a total
function and never propagates an exception. -/
theorem claim8_transport_failure_false
    (a : RawCandidate) (now : String) (e : String) (t : Except String Unit) :
    send_email_notification a (Except.error e) = false ∧
    send_sms_notification a (Except.error e) = false ∧
    (send_notification "email" a now (Except.error e) t).1 = false ∧
    (send_notification "sms" a now t (Except.error e)).1 = false := by
  refine ⟨rfl, rfl, rfl, rfl⟩

/-- Claim C9: dispatch through the console channel always returns `true`,
both for the channel itself and through the dispatch entry point. -/
theorem claim9_console_always_true (a : RawCandidate) (now : String)
    (et st : Except String Unit) :
    (send_console_notification a now).2 = true ∧
    (send_notification "console" a now et st).1 = true :=
  ⟨rfl, rfl⟩

/-- Claim C10: a configured notification method other than email, sms or
console makes dispatch return `false` and perform no external transmission:
neither channel send is invoked. -/
theorem claim10_unknown_method_no_send (method : String) (a : RawCandidate)
    (now : String) (et st : Except String Unit)
    (h1 : method ≠ "email") (h2 : method ≠ "sms") (h3 : method ≠ "console") :
    send_notification method a now et st = (false, []) := by
  simp [send_notification, h1, h2, h3]

theorem claim10_witness :
    send_notification "pigeon" ⟨none, none, none, "N"⟩ "2025-09-03 10:00:00"
      (Except.ok ()) (Except.ok ()) = (false, []) :=
  claim10_unknown_method_no_send "pigeon" ⟨none, none, none, "N"⟩ "2025-09-03 10:00:00"
    (Except.ok ()) (Except.ok ()) (by decide) (by decide) (by decide)
